import Mathlib

/-
Verification of the JSON-to-table derivation logic of the China_Lobby
dashboard (src/streamlit_json.py and src/streamlit_app.py).

The nested filing records are modelled by a generic `Json` value type.
Python-level partiality (KeyError, TypeError, AttributeError) is modelled
by `Option`: a result of `none` means the Python code raises an exception,
`some v` means it returns the value `v`.  Python dicts are modelled as
association lists (first binding wins, as dict keys are unique), Python
sets as duplicate-free lists.
-/

set_option autoImplicit false

namespace ChinaLobby

/-- Generic parsed JSON value (numbers restricted to integers, which is all
the filing data uses; pandas `NaN` for a missing cell is modelled by `null`). -/
inductive Json where
  | null : Json
  | bool : Bool → Json
  | num : Int → Json
  | str : String → Json
  | arr : List Json → Json
  | obj : List (String × Json) → Json

/-- Python truthiness of a value, as used in `if covered_position:` guards. -/
def pyTruthy : Json → Bool
  | .null => false
  | .bool b => b
  | .num n => n != 0
  | .str s => s != ""
  | .arr xs => !xs.isEmpty
  | .obj fs => !fs.isEmpty

mutual

/-- Python `repr` of a value (quote-escaping inside strings is not modelled;
no claim depends on the repr of a string containing a quote). -/
def pyRepr : Json → String
  | .null => "None"
  | .bool true => "True"
  | .bool false => "False"
  | .num n => toString n
  | .str s => "\x27" ++ s ++ "\x27"
  | .arr xs => "[" ++ String.intercalate ", " (pyReprList xs) ++ "]"
  | .obj fs => "\x7b" ++ String.intercalate ", " (pyReprFields fs) ++ "\x7d"

/-- Reprs of the elements of a list value. -/
def pyReprList : List Json → List String
  | [] => []
  | x :: xs => pyRepr x :: pyReprList xs

/-- Reprs of the fields of an object value. -/
def pyReprFields : List (String × Json) → List String
  | [] => []
  | (k, v) :: fs => ("\x27" ++ k ++ "\x27: " ++ pyRepr v) :: pyReprFields fs

end

/-- Python `str(x)` (also the meaning of an f-string interpolation). -/
def pyStr : Json → String
  | .str s => s
  | j => pyRepr j

/-- Python `d.get(k, default)`: `AttributeError` (`none`) unless the receiver
is a dict. -/
def Json.pyGet (j : Json) (k : String) (default : Json) : Option Json :=
  match j with
  | .obj fs => some ((fs.lookup k).getD default)
  | _ => none

/-- Python `d[k]` with a string key: `KeyError` on a dict lacking the key,
`TypeError` (`none`) on any non-dict receiver. -/
def Json.pyIndex (j : Json) (k : String) : Option Json :=
  match j with
  | .obj fs => fs.lookup k
  | _ => none

/-- Substring test used to model Python `sub in s` on strings. -/
def strHasSub (s sub : String) : Bool :=
  (List.range (s.length + 1)).any fun i => (s.data.drop i).take sub.length = sub.data

/-- Python `k in container`: key test on dicts, membership on lists,
substring test on strings, `TypeError` (`none`) otherwise. -/
def pyContains (j : Json) (k : String) : Option Bool :=
  match j with
  | .obj fs => some (fs.any fun p => p.1 == k)
  | .arr xs => some (xs.any fun x => match x with | .str s => s == k | _ => false)
  | .str s => some (strHasSub s k)
  | _ => none

/-- Whether a value is a JSON array (Python `isinstance(x, list)`). -/
def Json.isArr : Json → Bool
  | .arr _ => true
  | _ => false

/-- Whether a value is a JSON object (a Python dict). -/
def Json.isObj : Json → Bool
  | .obj _ => true
  | _ => false

/-- Whether a value is a JSON string. -/
def Json.isStr : Json → Bool
  | .str _ => true
  | _ => false

/-- Pandas `pd.notna` on a cell (missing cells are modelled by `null`). -/
def pdNotna : Json → Bool
  | .null => false
  | _ => true

/-- Python `s.strip()`: drop whitespace from both ends (modelled over the
character list so that it evaluates by kernel reduction). -/
def pyStrip (s : String) : String :=
  String.mk (((s.data.dropWhile Char.isWhitespace).reverse.dropWhile
    Char.isWhitespace).reverse)

/-- Python `s.lower()`. -/
def pyLower (s : String) : String :=
  String.mk (s.data.map Char.toLower)

/-- Digit-list accumulator for `pyInt`. -/
def pyDigitsAux (acc : Nat) : List Char → Option Nat
  | [] => some acc
  | c :: rest =>
      if c.isDigit then pyDigitsAux (acc * 10 + (c.toNat - 48)) rest else none

/-- Python `int(s)` on a string: surrounding whitespace allowed, optional
sign, otherwise digits only — `none` is a raised `ValueError`. -/
def pyInt (s : String) : Option Int :=
  match ((s.data.dropWhile Char.isWhitespace).reverse.dropWhile
      Char.isWhitespace).reverse with
  | [] => none
  | '-' :: rest =>
      match rest with
      | [] => none
      | _ => (pyDigitsAux 0 rest).map (fun n => -(n : Int))
  | '+' :: rest =>
      match rest with
      | [] => none
      | _ => (pyDigitsAux 0 rest).map (fun n => (n : Int))
  | l => (pyDigitsAux 0 l).map (fun n => (n : Int))

/-! Lobbyist extraction, merging variant (src/streamlit_json.py, `extract_lobbyists`). -/

/-- Display name of one lobbyist entry:
`f"{lobbyist['lobbyist'].get('first_name', '')} {lobbyist['lobbyist'].get('last_name', '')}".strip()`.
Shared by both source variants. -/
def lobbyistName (lob : Json) : Option String := do
  let lsub ← lob.pyIndex "lobbyist"
  let fn ← lsub.pyGet "first_name" (Json.str "")
  let ln ← lsub.pyGet "last_name" (Json.str "")
  pure (pyStrip (pyStr fn ++ " " ++ pyStr ln))

/-- Display name plus trimmed covered position of one lobbyist entry
(merging variant): `lobbyist.get("covered_position", "").strip()` calls
`.strip()` on the retrieved value, an `AttributeError` (`none`) when the
`covered_position` field holds a non-string (e.g. `null`). -/
def lobbyistNamePos (lob : Json) : Option (String × String) := do
  let name ← lobbyistName lob
  let cp ← lob.pyGet "covered_position" (Json.str "")
  match cp with
  | .str s => pure (name, pyStrip s)
  | _ => none

/-- The position filter of the merging variant:
`covered_position and covered_position.lower() not in ["n/a", ""]`. -/
def keepPosition (p : String) : Bool :=
  (p != "") && !(["n/a", ""].contains (pyLower p))

/-- Python `set.add` on a set modelled as a duplicate-free list (insertion
order stands in for the set's unspecified iteration order). -/
def addPos (ps : List String) (p : String) : List String :=
  if p ∈ ps then ps else ps ++ [p]

/-- Update of the entry for `name` when a position is added to its set. -/
def bumpEntry (name p : String) (e : String × List String) : String × List String :=
  if e.1 = name then (e.1, addPos e.2 p) else e

/-- The `if name not in lobbyist_dict: lobbyist_dict[name] = set()` step. -/
def ensureKey (d : List (String × List String)) (name : String) :
    List (String × List String) :=
  if d.any (fun e => e.1 == name) then d else d ++ [(name, [])]

/-- One merge step of the merging variant: under `if name:` ensure the key
exists, then add the position when it passes the filter. -/
def updateDict (d : List (String × List String)) (name p : String) :
    List (String × List String) :=
  if name = "" then d
  else if keepPosition p then (ensureKey d name).map (bumpEntry name p)
  else ensureKey d name

/-- The condition `"lobbyists" in activity and isinstance(activity["lobbyists"], list)`:
`some (some ls)` when the activity carries a list of lobbyists, `some none`
when the condition is false, `none` when evaluating it raises. -/
def lobbyistsOfActivity (activity : Json) : Option (Option (List Json)) := do
  let c ← pyContains activity "lobbyists"
  if c then
    let lobs ← activity.pyIndex "lobbyists"
    match lobs with
    | .arr ls => pure (some ls)
    | _ => pure none
  else pure none

/-- Inner loop of the merging variant over the lobbyists of one activity. -/
def lobFold (d : List (String × List String)) :
    List Json → Option (List (String × List String))
  | [] => some d
  | lob :: rest => do
      let np ← lobbyistNamePos lob
      lobFold (updateDict d np.1 np.2) rest

/-- Outer loop of the merging variant over the activities. -/
def actFold (d : List (String × List String)) :
    List Json → Option (List (String × List String))
  | [] => some d
  | a :: rest => do
      match (← lobbyistsOfActivity a) with
      | some ls => do
          let d1 ← lobFold d ls
          actFold d1 rest
      | none => actFold d rest

/-- `extract_lobbyists` of src/streamlit_json.py: builds the name → position-set
dict across all activities; the final list comprehension over `.items()` is the
dict itself. Returns `some []` on any non-list input. -/
def extract_lobbyists (activity_list : Json) :
    Option (List (String × List String)) :=
  match activity_list with
  | .arr acts => actFold [] acts
  | _ => some []

/-! Lobbyist extraction, per-occurrence variant (src/streamlit_app.py). -/

/-- Inner loop of `extract_lobbyists` of src/streamlit_app.py: one display
name per lobbyist occurrence, duplicates kept. -/
def namesOfLobs : List Json → Option (List String)
  | [] => some []
  | lob :: rest => do
      let n ← lobbyistName lob
      let ns ← namesOfLobs rest
      pure (n :: ns)

/-- Outer loop of `extract_lobbyists` of src/streamlit_app.py. -/
def namesOfActs : List Json → Option (List String)
  | [] => some []
  | a :: rest => do
      let here ← match (← lobbyistsOfActivity a) with
        | some ls => namesOfLobs ls
        | none => pure []
      let there ← namesOfActs rest
      pure (here ++ there)

/-- `extract_lobbyists` of src/streamlit_app.py. -/
def extract_lobbyists_app (activity_list : Json) : Option (List String) :=
  match activity_list with
  | .arr acts => namesOfActs acts
  | _ => some []

/-- Sorted-ascending insertion, Python string order. -/
def insSorted (p : String) : List String → List String
  | [] => [p]
  | q :: rest => if p < q then p :: q :: rest else q :: insSorted p rest

/-- Python `sorted` on strings. -/
def sortStrings : List String → List String
  | [] => []
  | p :: rest => insSorted p (sortStrings rest)

/-- Python `set` of a string list, keeping first occurrences. -/
def dedupKeepFirst : List String → List String
  | [] => []
  | x :: rest => x :: (dedupKeepFirst rest).filter (fun y => y != x)

/-- Python `sorted(set(l))`. -/
def pySortedDedup (l : List String) : List String :=
  sortStrings (dedupKeepFirst l)

/-- The position filter of `extract_covered_positions`:
`if pos and pos.lower() != "n/a"`. -/
def appKeep (p : String) : Bool :=
  (p != "") && (pyLower p != "n/a")

/-- Inner loop of `extract_covered_positions` of src/streamlit_app.py:
`str(lobbyist.get("covered_position", "")).strip()` guarded by the truthiness
of the retrieved value — the `str(...)` coercion makes this total on any
field value once the entry itself is a dict. -/
def coveredOfLobs : List Json → Option (List String)
  | [] => some []
  | lob :: rest => do
      let cp ← lob.pyGet "covered_position" (Json.str "")
      let rest1 ← coveredOfLobs rest
      if pyTruthy cp then pure (pyStrip (pyStr cp) :: rest1) else pure rest1

/-- Outer loop of `extract_covered_positions` of src/streamlit_app.py. -/
def coveredOfActs : List Json → Option (List String)
  | [] => some []
  | a :: rest => do
      let here ← match (← lobbyistsOfActivity a) with
        | some ls => coveredOfLobs ls
        | none => pure []
      let there ← coveredOfActs rest
      pure (here ++ there)

/-- `extract_covered_positions` of src/streamlit_app.py. -/
def extract_covered_positions (activity_list : Json) : Option (List String) :=
  match activity_list with
  | .arr acts => do
      let positions ← coveredOfActs acts
      pure (pySortedDedup (positions.filter appKeep))
  | _ => some []

/-! Foreign-entity extraction. -/

/-- Loop of `extract_foreign_entities` of src/streamlit_json.py:
`[e["name"] for e in entities_list if "name" in e]`. -/
def foreignNames : List Json → Option (List Json)
  | [] => some []
  | e :: rest => do
      let c ← pyContains e "name"
      if c then
        let n ← e.pyIndex "name"
        let rest1 ← foreignNames rest
        pure (n :: rest1)
      else foreignNames rest

/-- `extract_foreign_entities` of src/streamlit_json.py. -/
def extract_foreign_entities (entities_list : Json) : Option (List Json) :=
  match entities_list with
  | .arr es => foreignNames es
  | _ => some []

/-- Loop of the src/streamlit_app.py lambda: `[e["name"] for e in x]` —
no `"name" in e` guard, so a missing `name` is a `KeyError` (`none`). -/
def foreignNamesApp : List Json → Option (List Json)
  | [] => some []
  | e :: rest => do
      let n ← e.pyIndex "name"
      let rest1 ← foreignNamesApp rest
      pure (n :: rest1)

/-- The `foreign_entities` lambda of src/streamlit_app.py:
`lambda x: [e["name"] for e in x] if isinstance(x, list) else []`. -/
def foreign_entities_app (x : Json) : Option (List Json) :=
  match x with
  | .arr es => foreignNamesApp es
  | _ => some []

/-! Registrant type and filing link. -/

/-- Python `str.capitalize()`: first character uppercased, the rest lowercased. -/
def pyCapitalize (s : String) : String :=
  match s.data with
  | [] => ""
  | c :: rest => String.mk (c.toUpper :: rest.map Char.toLower)

/-- `normalize_text` of src/streamlit_json.py:
`text.lower().capitalize() if isinstance(text, str) else text`. -/
def normalize_text (j : Json) : Json :=
  match j with
  | .str s => .str (pyCapitalize (pyLower s))
  | _ => j

/-- The `registrant_type` derivation of src/streamlit_json.py:
`normalize_text(x) if pd.notna(x) else "Unknown"`. -/
def registrant_type_json (x : Json) : Json :=
  if pdNotna x then normalize_text x else .str "Unknown"

/-- The `registrant_type` derivation of src/streamlit_app.py:
`df["registrant_description"].fillna("Unknown")`. -/
def registrant_type_app (x : Json) : Json :=
  if pdNotna x then x else .str "Unknown"

/-- `create_hyperlink` of src/streamlit_json.py. -/
def create_hyperlink (url : Json) : String :=
  if pdNotna url then
    "<a href=\"" ++ pyStr url ++ "\" target=\"_blank\">View Filing</a>"
  else ""

/-! The `filing_year` coercions. -/

/-- Coercion of one cell under `astype("Int64")` (src/streamlit_json.py):
`some none` is pandas `NA`, `none` is a raised conversion error. -/
def astypeInt64Cell : Json → Option (Option Int)
  | .null => some none
  | .num n => some (some n)
  | .bool b => some (some (if b then 1 else 0))
  | .str s => (pyInt s).map some
  | _ => none

/-- Coercion of one cell under `astype(int)` (src/streamlit_app.py):
a missing value (`NaN`/`None`) already raises. -/
def astypeIntCell : Json → Option Int
  | .num n => some n
  | .bool b => some (if b then 1 else 0)
  | .str s => pyInt s
  | _ => none

/-- Whole-column `astype("Int64")`: any failing cell aborts the load. -/
def astypeInt64Col : List Json → Option (List (Option Int))
  | [] => some []
  | c :: rest => do
      let v ← astypeInt64Cell c
      let vs ← astypeInt64Col rest
      pure (v :: vs)

/-- Whole-column `astype(int)`: any failing cell aborts the load. -/
def astypeIntCol : List Json → Option (List Int)
  | [] => some []
  | c :: rest => do
      let v ← astypeIntCell c
      let vs ← astypeIntCol rest
      pure (v :: vs)

/-! The sidebar filters and the exploded value counts. -/

/-- One derived row, restricted to the columns the sidebar filters touch. -/
structure Row where
  filing_year : Option Int
  client_name : Option String
  registrant_name : Option String
  foreign_entities : List String

/-- Cell-level `isin` on the (nullable) year column: `NA.isin(...)` is false. -/
def isinYear (c : Option Int) (ys : List Int) : Bool :=
  match c with
  | some y => ys.contains y
  | none => false

/-- Cell-level `isin` on a string column. -/
def isinStr (c : Option String) (vs : List String) : Bool :=
  match c with
  | some s => vs.contains s
  | none => false

/-- `if year_filter: df = df[df["filing_year"].isin(year_filter)]`. -/
def applyYearFilter (ys : List Int) (rows : List Row) : List Row :=
  if ys.isEmpty then rows else rows.filter (fun r => isinYear r.filing_year ys)

/-- `if client_filter: df = df[df["client_name"].isin(client_filter)]`. -/
def applyClientFilter (cs : List String) (rows : List Row) : List Row :=
  if cs.isEmpty then rows else rows.filter (fun r => isinStr r.client_name cs)

/-- `if registrant_filter: df = df[df["registrant_name"].isin(registrant_filter)]`. -/
def applyRegistrantFilter (rs : List String) (rows : List Row) : List Row :=
  if rs.isEmpty then rows
  else rows.filter (fun r => isinStr r.registrant_name rs)

/-- `if foreign_filter: df = df[df["foreign_entities"].apply(lambda x: any(entity in x for entity in foreign_filter))]`. -/
def applyForeignFilter (fs : List String) (rows : List Row) : List Row :=
  if fs.isEmpty then rows
  else rows.filter (fun r => fs.any (fun entity => r.foreign_entities.contains entity))

/-- Pandas `explode` on a collection-valued column: an empty collection
becomes a single `NaN` cell (`none`). -/
def explodeCol : List (List String) → List (Option String)
  | [] => []
  | xs :: rest =>
      (match xs with
       | [] => [(none : Option String)]
       | _ => xs.map some) ++ explodeCol rest

/-- Pandas `dropna` on the exploded column. -/
def dropnaCol (l : List (Option String)) : List String :=
  l.filterMap id

/-- One counting step of `value_counts`. -/
def bumpCount (acc : List (String × Nat)) (v : String) : List (String × Nat) :=
  if acc.any (fun e => e.1 == v) then
    acc.map (fun e => if e.1 = v then (e.1, e.2 + 1) else e)
  else acc ++ [(v, 1)]

/-- Pandas `value_counts` as a mapping from value to occurrence count
(the presentation-side ordering by frequency is not modelled). -/
def value_counts (l : List String) : List (String × Nat) :=
  l.foldl bumpCount []

/-- `df.explode(col)[col].dropna().value_counts()` as used on the
`foreign_entities` and `covered_positions` columns in both source files. -/
def explodedValueCounts (col : List (List String)) : List (String × Nat) :=
  value_counts (dropnaCol (explodeCol col))

/-! Specification-side helpers used to state the claims. -/

/-- The `name` field of a foreign-entity object, when both exist. -/
def objName : Json → Option Json
  | .obj fs => fs.lookup "name"
  | _ => none

/-- All (display name, stripped covered position) pairs of the lobbyist
entries of one activity's lobbyist list, in order (the raw data the merging
variant folds over). -/
def pairsOfLobs : List Json → Option (List (String × String))
  | [] => some []
  | lob :: rest => do
      let np ← lobbyistNamePos lob
      let rest1 ← pairsOfLobs rest
      pure (np :: rest1)

/-- All (display name, stripped covered position) pairs across the
activities of one filing, in order. -/
def pairsOfActs : List Json → Option (List (String × String))
  | [] => some []
  | a :: rest => do
      let here ← match (← lobbyistsOfActivity a) with
        | some ls => pairsOfLobs ls
        | none => pure []
      let there ← pairsOfActs rest
      pure (here ++ there)

/-- The merge step of the merging variant, as a fold step over pairs. -/
def stepDict (d : List (String × List String)) (p : String × String) :
    List (String × List String) :=
  updateDict d p.1 p.2

/-- The display names present in a lobbyist dict. -/
def dictKeys (d : List (String × List String)) : List String :=
  d.map Prod.fst

/-- Invariant tying the lobbyist dict to the list of processed
(name, position) pairs: keys are unique and non-empty, and each key's
position set is exactly the filtered positions carried by that name. -/
def DictInv (pairs : List (String × String)) (d : List (String × List String)) : Prop :=
  (dictKeys d).Nodup ∧
  (∀ name ps, (name, ps) ∈ d → name ≠ "" ∧ ps.Nodup ∧
      ∀ p, p ∈ ps ↔ ((name, p) ∈ pairs ∧ keepPosition p = true)) ∧
  (∀ name p, (name, p) ∈ pairs → name ≠ "" → name ∈ dictKeys d)

/-- A guarded filter application, the common shape of the four sidebar
filters (`if selection: df = df[pred]`). -/
def applyGuard (skip : Bool) (p : Row → Bool) (rows : List Row) : List Row :=
  if skip then rows else rows.filter p

/-! Concrete inputs used by counterexamples and witnesses. -/

/-- One activity whose only lobbyist is Jane Doe with the given position. -/
def cJaneAct (pos : String) : Json :=
  .obj [("lobbyists", .arr [.obj
    [("lobbyist", .obj [("first_name", .str "Jane"), ("last_name", .str "Doe")]),
     ("covered_position", .str pos)]])]

/-- Two activities of one filing, both listing Jane Doe. -/
def cJaneList : List Json := [cJaneAct "Senator", cJaneAct "Advisor"]

/-- A lobbyist entry around an arbitrary `covered_position` value. -/
def mkCPEntry (v : Json) : Json :=
  .obj [("lobbyist", .obj [("first_name", .str "Jane"), ("last_name", .str "Doe")]),
        ("covered_position", v)]

/-- A one-activity list around an arbitrary `covered_position` value. -/
def mkCPActs (v : Json) : Json :=
  .arr [.obj [("lobbyists", .arr [mkCPEntry v])]]

/-- One activity holding a lobbyist with empty first and last name and the
position "Senator", next to Jane Doe with the position "Advisor". -/
def cEmptyNameList : List Json :=
  [.obj [("lobbyists", .arr
    [.obj [("lobbyist", .obj [("first_name", .str ""), ("last_name", .str "")]),
           ("covered_position", .str "Senator")],
     .obj [("lobbyist", .obj [("first_name", .str "Jane"), ("last_name", .str "Doe")]),
           ("covered_position", .str "Advisor")]])]]

/-- A foreign-entity list: one entry with a name, one object lacking it. -/
def cForeignList : List Json :=
  [.obj [("name", .str "Acme Corp")], .obj []]

/-! Helper lemmas. -/

theorem pyLower_eq_empty_iff (p : String) : pyLower p = "" ↔ p = "" := by
  cases p with
  | mk d =>
      constructor
      · intro h
        have hd : d.map Char.toLower = [] := congrArg String.data h
        have hnil : d = [] := List.map_eq_nil_iff.mp hd
        subst hnil
        rfl
      · intro h
        have hnil : d = [] := congrArg String.data h
        subst hnil
        rfl

theorem keepPosition_iff (p : String) :
    keepPosition p = true ↔ (p ≠ "" ∧ pyLower p ≠ "n/a") := by
  have hlow : pyLower p = "" ↔ p = "" := pyLower_eq_empty_iff p
  unfold keepPosition
  cases hne : p == "" <;> cases hna : pyLower p == "n/a" <;>
    cases hle : pyLower p == "" <;>
    simp [List.contains, List.elem, bne, hne, hna, hle] <;>
    simp_all

theorem filter_swap (p q : Row → Bool) (l : List Row) :
    (l.filter p).filter q = (l.filter q).filter p := by
  rw [List.filter_filter, List.filter_filter]
  exact List.filter_congr (fun a _ => Bool.and_comm _ _)

theorem applyGuard_comm (b1 b2 : Bool) (p q : Row → Bool) (rows : List Row) :
    applyGuard b1 p (applyGuard b2 q rows) = applyGuard b2 q (applyGuard b1 p rows) := by
  cases b1 <;> cases b2 <;> simp [applyGuard]
  exact List.filter_congr (fun a _ => Bool.and_comm (p a) (q a))

theorem strHasSub_append (a s b : String) : strHasSub ((a ++ s) ++ b) s = true := by
  cases a with | mk la =>
  cases s with | mk ls =>
  cases b with | mk lb =>
  unfold strHasSub
  rw [List.any_eq_true]
  refine ⟨la.length, List.mem_range.mpr ?_, ?_⟩
  · show la.length < (String.mk ((la ++ ls) ++ lb)).length + 1
    show la.length < ((la ++ ls) ++ lb).length + 1
    simp [List.length_append]
    omega
  · show decide ((((la ++ ls) ++ lb).drop la.length).take ls.length = ls) = true
    rw [decide_eq_true_eq, List.append_assoc, List.drop_left, List.take_left]

theorem anchor_ne_empty (x : String) :
    ("<a href=\"" ++ x ++ "\" target=\"_blank\">View Filing</a>") ≠ "" := by
  intro h
  have hd := congrArg String.data h
  rw [String.data_append, String.data_append] at hd
  have h0 : ("<a href=\"" : String).data = [] :=
    (List.append_eq_nil.mp ((List.append_eq_nil.mp hd).1)).1
  exact absurd h0 (by decide)

theorem astypeInt64Col_of_clean :
    ∀ (col : List Json), (∀ c ∈ col, c = Json.null ∨ ∃ n, c = Json.num n) →
      astypeInt64Col col =
        some (col.map (fun c => match c with | Json.num n => some n | _ => none)) := by
  intro col
  induction col with
  | nil => intro _; rfl
  | cons c rest ih =>
      intro h
      have hrest := ih (fun x hx => h x (List.mem_cons_of_mem _ hx))
      rcases h c (List.mem_cons_self _ _) with rfl | ⟨n, rfl⟩ <;>
        simp [astypeInt64Col, astypeInt64Cell, hrest]

theorem exploded_nil_of_all_nil :
    ∀ (col : List (List String)), (∀ xs ∈ col, xs = []) →
      dropnaCol (explodeCol col) = [] := by
  intro col
  induction col with
  | nil => intro _; rfl
  | cons xs rest ih =>
      intro h
      have hx : xs = [] := h xs (List.mem_cons_self _ _)
      subst hx
      have hr := ih (fun x hx => h x (List.mem_cons_of_mem _ hx))
      simpa [explodeCol, dropnaCol] using hr

theorem addPos_mem (ps : List String) (p q : String) :
    q ∈ addPos ps p ↔ (q ∈ ps ∨ q = p) := by
  unfold addPos
  by_cases hp : p ∈ ps
  · rw [if_pos hp]
    constructor
    · exact Or.inl
    · rintro (h | rfl)
      · exact h
      · exact hp
  · rw [if_neg hp]
    simp [List.mem_append]

theorem addPos_nodup (ps : List String) (p : String) (h : ps.Nodup) :
    (addPos ps p).Nodup := by
  unfold addPos
  by_cases hp : p ∈ ps
  · rw [if_pos hp]; exact h
  · rw [if_neg hp]
    simp [List.nodup_append, h, hp]

theorem bumpEntry_fst (name p : String) (e : String × List String) :
    (bumpEntry name p e).1 = e.1 := by
  unfold bumpEntry
  split <;> rfl

theorem dictKeys_map_bump (d : List (String × List String)) (n p : String) :
    dictKeys (d.map (bumpEntry n p)) = dictKeys d := by
  unfold dictKeys
  rw [List.map_map]
  exact List.map_congr_left (fun e _ => bumpEntry_fst n p e)

theorem mem_dictKeys (d : List (String × List String)) (name : String) :
    name ∈ dictKeys d ↔ ∃ ps, (name, ps) ∈ d := by
  unfold dictKeys
  constructor
  · intro h
    obtain ⟨e, he, hfst⟩ := List.mem_map.mp h
    exact ⟨e.2, by rwa [← hfst, Prod.mk.eta]⟩
  · rintro ⟨ps, h⟩
    exact List.mem_map.mpr ⟨(name, ps), h, rfl⟩

theorem any_key_iff (d : List (String × List String)) (n : String) :
    (d.any (fun e => e.1 == n) = true) ↔ n ∈ dictKeys d := by
  rw [List.any_eq_true]
  unfold dictKeys
  constructor
  · rintro ⟨e, he, hbeq⟩
    exact List.mem_map.mpr ⟨e, he, beq_iff_eq.mp hbeq⟩
  · intro h
    obtain ⟨e, he, hfst⟩ := List.mem_map.mp h
    exact ⟨e, he, beq_iff_eq.mpr hfst⟩

theorem ensureKey_keys_nodup (d : List (String × List String)) (n : String)
    (h : (dictKeys d).Nodup) : (dictKeys (ensureKey d n)).Nodup := by
  unfold ensureKey
  by_cases hc : d.any (fun e => e.1 == n) = true
  · rw [if_pos hc]; exact h
  · rw [if_neg hc]
    have hn : n ∉ dictKeys d := fun hm => hc ((any_key_iff d n).mpr hm)
    unfold dictKeys at h hn ⊢
    rw [List.map_append]
    simp [List.nodup_append, h, hn]

theorem mem_ensureKey (d : List (String × List String)) (n name : String)
    (ps : List String) :
    (name, ps) ∈ ensureKey d n →
      (name, ps) ∈ d ∨ (name = n ∧ ps = [] ∧ n ∉ dictKeys d) := by
  unfold ensureKey
  by_cases hc : d.any (fun e => e.1 == n) = true
  · rw [if_pos hc]; exact Or.inl
  · rw [if_neg hc]
    intro h
    rcases List.mem_append.mp h with h | h
    · exact Or.inl h
    · have heq := List.mem_singleton.mp h
      injection heq with he1 he2
      exact Or.inr ⟨he1, he2, fun hm => hc ((any_key_iff d n).mpr hm)⟩

theorem mem_ensureKey_of_mem (d : List (String × List String)) (n name : String)
    (ps : List String) (h : (name, ps) ∈ d) : (name, ps) ∈ ensureKey d n := by
  unfold ensureKey
  split
  · exact h
  · exact List.mem_append_left _ h

theorem self_mem_ensureKey_keys (d : List (String × List String)) (n : String) :
    n ∈ dictKeys (ensureKey d n) := by
  unfold ensureKey
  by_cases hc : d.any (fun e => e.1 == n) = true
  · rw [if_pos hc]; exact (any_key_iff d n).mp hc
  · rw [if_neg hc]
    unfold dictKeys
    rw [List.map_append]
    exact List.mem_append_right _ (List.mem_singleton.mpr rfl)

theorem keys_ensureKey_sub (d : List (String × List String)) (n name : String)
    (h : name ∈ dictKeys d) : name ∈ dictKeys (ensureKey d n) := by
  obtain ⟨ps, hm⟩ := (mem_dictKeys d name).mp h
  exact (mem_dictKeys _ name).mpr ⟨ps, mem_ensureKey_of_mem d n name ps hm⟩

theorem mem_map_bumpEntry (l : List (String × List String)) (n p name : String)
    (qs : List String) :
    ((name, qs) ∈ l.map (bumpEntry n p)) ↔
      ∃ qs0, (name, qs0) ∈ l ∧ qs = (if name = n then addPos qs0 p else qs0) := by
  induction l with
  | nil => simp
  | cons e rest ih =>
      obtain ⟨a, b⟩ := e
      simp only [List.map_cons, List.mem_cons, ih]
      constructor
      · rintro (h | h)
        · unfold bumpEntry at h
          by_cases ha : a = n
          · rw [if_pos ha] at h
            injection h with hf hs
            subst hf
            subst hs
            exact ⟨b, Or.inl rfl, by rw [if_pos ha]⟩
          · rw [if_neg ha] at h
            injection h with hf hs
            subst hf
            subst hs
            exact ⟨qs, Or.inl rfl, by rw [if_neg ha]⟩
        · obtain ⟨qs0, hm, hq⟩ := h
          exact ⟨qs0, Or.inr hm, hq⟩
      · rintro ⟨qs0, (h | h), hq⟩
        · injection h with hf hs
          subst hf
          subst hs
          subst hq
          left
          by_cases ha : name = n <;> simp [bumpEntry, ha]
        · exact Or.inr ⟨qs0, h, hq⟩

theorem dictInv_nil : DictInv [] [] := by
  unfold DictInv
  refine ⟨List.nodup_nil, ?_, ?_⟩
  · intro name ps h
    exact absurd h (List.not_mem_nil _)
  · intro name p h _
    exact absurd h (List.not_mem_nil _)

theorem dictInv_step (pairs : List (String × String)) (d : List (String × List String))
    (pr : String × String) (h : DictInv pairs d) :
    DictInv (pairs ++ [pr]) (stepDict d pr) := by
  unfold DictInv at h ⊢
  obtain ⟨h1, h2, h3⟩ := h
  obtain ⟨n, p⟩ := pr
  simp only [stepDict, updateDict]
  by_cases hn : n = ""
  · rw [if_pos hn]
    subst hn
    refine ⟨h1, ?_, ?_⟩
    · intro name ps hmem
      obtain ⟨hne, hnd, hchar⟩ := h2 name ps hmem
      refine ⟨hne, hnd, fun q => ?_⟩
      rw [hchar q]
      constructor
      · rintro ⟨hq, hk⟩
        exact ⟨List.mem_append_left _ hq, hk⟩
      · rintro ⟨hq, hk⟩
        rcases List.mem_append.mp hq with hq | hq
        · exact ⟨hq, hk⟩
        · have heq := List.mem_singleton.mp hq
          injection heq with he1 he2
          exact absurd he1 hne
    · intro name q hq hne
      rcases List.mem_append.mp hq with hq | hq
      · exact h3 name q hq hne
      · have heq := List.mem_singleton.mp hq
        injection heq with he1 he2
        exact absurd he1 hne
  · rw [if_neg hn]
    have hno_pairs : ∀ q, n ∉ dictKeys d → (n, q) ∉ pairs :=
      fun q hnk hq => hnk (h3 n q hq hn)
    by_cases hkeep : keepPosition p = true
    · rw [if_pos hkeep]
      refine ⟨?_, ?_, ?_⟩
      · rw [dictKeys_map_bump]
        exact ensureKey_keys_nodup d n h1
      · intro name qs hmem
        obtain ⟨qs0, hmem0, hqs⟩ := (mem_map_bumpEntry _ n p name qs).mp hmem
        rcases mem_ensureKey d n name qs0 hmem0 with hold | ⟨hname, hqs0, hnk⟩
        · obtain ⟨hne, hnd0, hchar0⟩ := h2 name qs0 hold
          by_cases hname : name = n
          · rw [if_pos hname] at hqs
            subst hname
            subst hqs
            refine ⟨hne, addPos_nodup qs0 p hnd0, fun q => ?_⟩
            rw [addPos_mem qs0 p q, hchar0 q]
            constructor
            · rintro (⟨hq, hk⟩ | rfl)
              · exact ⟨List.mem_append_left _ hq, hk⟩
              · exact ⟨List.mem_append_right _ (List.mem_singleton.mpr rfl), hkeep⟩
            · rintro ⟨hq, hk⟩
              rcases List.mem_append.mp hq with hq | hq
              · exact Or.inl ⟨hq, hk⟩
              · have heq := List.mem_singleton.mp hq
                injection heq with he1 he2
                exact Or.inr he2
          · rw [if_neg hname] at hqs
            subst hqs
            refine ⟨hne, hnd0, fun q => ?_⟩
            rw [hchar0 q]
            constructor
            · rintro ⟨hq, hk⟩
              exact ⟨List.mem_append_left _ hq, hk⟩
            · rintro ⟨hq, hk⟩
              rcases List.mem_append.mp hq with hq | hq
              · exact ⟨hq, hk⟩
              · have heq := List.mem_singleton.mp hq
                injection heq with he1 he2
                exact absurd he1 hname
        · subst hname
          subst hqs0
          rw [if_pos rfl] at hqs
          have hqsp : qs = [p] := by simpa [addPos] using hqs
          subst hqsp
          refine ⟨hn, List.nodup_singleton p, fun q => ?_⟩
          constructor
          · intro hq
            have hqp := List.mem_singleton.mp hq
            subst hqp
            exact ⟨List.mem_append_right _ (List.mem_singleton.mpr rfl), hkeep⟩
          · rintro ⟨hq, hk⟩
            rcases List.mem_append.mp hq with hq | hq
            · exact absurd hq (hno_pairs q hnk)
            · have heq := List.mem_singleton.mp hq
              injection heq with he1 he2
              exact List.mem_singleton.mpr he2
      · intro name q hq hne
        rw [dictKeys_map_bump]
        rcases List.mem_append.mp hq with hq | hq
        · exact keys_ensureKey_sub d n name (h3 name q hq hne)
        · have heq := List.mem_singleton.mp hq
          injection heq with he1 he2
          rw [he1]
          exact self_mem_ensureKey_keys d n
    · rw [if_neg hkeep]
      have hkeepf : keepPosition p = false := by
        revert hkeep
        cases keepPosition p <;> simp
      refine ⟨ensureKey_keys_nodup d n h1, ?_, ?_⟩
      · intro name qs hmem
        rcases mem_ensureKey d n name qs hmem with hold | ⟨hname, hqs0, hnk⟩
        · obtain ⟨hne, hnd0, hchar0⟩ := h2 name qs hold
          refine ⟨hne, hnd0, fun q => ?_⟩
          rw [hchar0 q]
          constructor
          · rintro ⟨hq, hk⟩
            exact ⟨List.mem_append_left _ hq, hk⟩
          · rintro ⟨hq, hk⟩
            rcases List.mem_append.mp hq with hq | hq
            · exact ⟨hq, hk⟩
            · have heq := List.mem_singleton.mp hq
              injection heq with he1 he2
              subst he2
              rw [hkeepf] at hk
              cases hk
        · subst hname
          subst hqs0
          refine ⟨hn, List.nodup_nil, fun q => ?_⟩
          constructor
          · intro hq
            exact absurd hq (List.not_mem_nil q)
          · rintro ⟨hq, hk⟩
            rcases List.mem_append.mp hq with hq | hq
            · exact absurd hq (hno_pairs q hnk)
            · have heq := List.mem_singleton.mp hq
              injection heq with he1 he2
              subst he2
              rw [hkeepf] at hk
              cases hk
      · intro name q hq hne
        rcases List.mem_append.mp hq with hq | hq
        · exact keys_ensureKey_sub d n name (h3 name q hq hne)
        · have heq := List.mem_singleton.mp hq
          injection heq with he1 he2
          rw [he1]
          exact self_mem_ensureKey_keys d n

theorem dictInv_foldl (ps : List (String × String)) :
    ∀ (pre : List (String × String)) (d : List (String × List String)),
      DictInv pre d → DictInv (pre ++ ps) (ps.foldl stepDict d) := by
  induction ps with
  | nil =>
      intro pre d h
      simpa using h
  | cons pr rest ih =>
      intro pre d h
      have h1 := dictInv_step pre d pr h
      have h2 := ih (pre ++ [pr]) (stepDict d pr) h1
      simpa [List.append_assoc] using h2

theorem lobFold_eq (ls : List Json) :
    ∀ d, lobFold d ls = (pairsOfLobs ls).map (fun ps => ps.foldl stepDict d) := by
  induction ls with
  | nil => intro d; rfl
  | cons lob rest ih =>
      intro d
      cases hnp : lobbyistNamePos lob with
      | none => simp [lobFold, pairsOfLobs, hnp]
      | some np =>
          simp [lobFold, pairsOfLobs, hnp, ih]
          cases pairsOfLobs rest <;> simp [stepDict]

theorem actFold_eq (acts : List Json) :
    ∀ d, actFold d acts = (pairsOfActs acts).map (fun ps => ps.foldl stepDict d) := by
  induction acts with
  | nil => intro d; rfl
  | cons a rest ih =>
      intro d
      cases hla : lobbyistsOfActivity a with
      | none => simp [actFold, pairsOfActs, hla]
      | some ls? =>
          cases ls? with
          | none =>
              simp [actFold, pairsOfActs, hla, ih]
          | some ls =>
              have hlf := lobFold_eq ls d
              cases hpl : pairsOfLobs ls with
              | none =>
                  rw [hpl] at hlf
                  simp [actFold, pairsOfActs, hla, hpl, hlf]
              | some psl =>
                  rw [hpl] at hlf
                  cases hpr : pairsOfActs rest with
                  | none => simp [actFold, pairsOfActs, hla, hpl, hlf, ih, hpr]
                  | some prs =>
                      simp [actFold, pairsOfActs, hla, hpl, hlf, ih, hpr,
                        List.foldl_append]

theorem extract_lobbyists_dictInv (acts : List Json)
    (res : List (String × List String))
    (h : extract_lobbyists (Json.arr acts) = some res) :
    ∃ pairs, pairsOfActs acts = some pairs ∧ DictInv pairs res := by
  have he : extract_lobbyists (Json.arr acts) =
      (pairsOfActs acts).map (fun ps => ps.foldl stepDict []) := actFold_eq acts []
  rw [he] at h
  cases hp : pairsOfActs acts with
  | none =>
      rw [hp] at h
      exact Option.noConfusion h
  | some pairs =>
      rw [hp] at h
      simp only [Option.map_some', Option.some.injEq] at h
      refine ⟨pairs, rfl, ?_⟩
      have hinv := dictInv_foldl pairs [] [] dictInv_nil
      rw [List.nil_append] at hinv
      rwa [h] at hinv

theorem lookup_isSome_iff_any (fs : List (String × Json)) (k : String) :
    (fs.lookup k).isSome = fs.any (fun p => p.1 == k) := by
  induction fs with
  | nil => rfl
  | cons e t ih =>
      obtain ⟨a, b⟩ := e
      by_cases hk : k = a
      · subst hk
        simp [List.lookup, ih]
      · have hka : (k == a) = false := beq_eq_false_iff_ne.mpr hk
        have hak : (a == k) = false := beq_eq_false_iff_ne.mpr (Ne.symm hk)
        simp [List.lookup, hka, hak, ih]

theorem foreignNames_of_objs :
    ∀ (es : List Json), (∀ e ∈ es, e.isObj = true) →
      foreignNames es = some (es.filterMap objName) := by
  intro es
  induction es with
  | nil => intro _; rfl
  | cons e rest ih =>
      intro h
      have hrest := ih (fun x hx => h x (List.mem_cons_of_mem _ hx))
      have he := h e (List.mem_cons_self _ _)
      obtain ⟨fs, rfl⟩ : ∃ fs, e = Json.obj fs := by
        cases e <;> first | exact ⟨_, rfl⟩ | exact absurd he (by simp [Json.isObj])
      cases hc : fs.any (fun p => p.1 == "name") with
      | false =>
          have hnone : fs.lookup "name" = none := by
            cases hlk : fs.lookup "name" with
            | none => rfl
            | some v =>
                have hiff := lookup_isSome_iff_any fs "name"
                rw [hlk, hc] at hiff
                simp at hiff
          simp [foreignNames, pyContains, hc, hrest, List.filterMap_cons, objName, hnone]
      | true =>
          obtain ⟨v, hv⟩ : ∃ v, fs.lookup "name" = some v := by
            have hiff := lookup_isSome_iff_any fs "name"
            rw [hc] at hiff
            exact Option.isSome_iff_exists.mp hiff
          simp [foreignNames, pyContains, Json.pyIndex, hc, hv, hrest,
            List.filterMap_cons, objName]

/-! Claim theorems. -/

/-- Claim C1 counterexample: the per-occurrence variant
(`extract_lobbyists` of src/streamlit_app.py) lists Jane Doe once per
activity, so the derived lobbyists collection of a filing with two
activities naming her holds two entries with the same display name —
identities are not unique as the claim states. -/
theorem c1_counterexample :
    extract_lobbyists_app (Json.arr cJaneList) = some ["Jane Doe", "Jane Doe"] ∧
    ¬ (["Jane Doe", "Jane Doe"] : List String).Nodup :=
  ⟨rfl, by decide⟩

/-- Claim C1 (amended): in the merging variant (src/streamlit_json.py), the
derived lobbyists collection has at most one entry per display name, and the
entry for a name carries exactly (duplicate-free) the trimmed covered
positions attached to that name across all activities, excluding the empty
string and case-insensitive "n/a"; the per-occurrence variant of
src/streamlit_app.py instead lists one name per occurrence, with repeats. -/
theorem c1_merging_unique_union (acts : List Json)
    (res : List (String × List String))
    (h : extract_lobbyists (Json.arr acts) = some res) :
    ∃ pairs, pairsOfActs acts = some pairs ∧
      (dictKeys res).Nodup ∧
      ∀ name ps, (name, ps) ∈ res → ps.Nodup ∧
        ∀ p, p ∈ ps ↔ ((name, p) ∈ pairs ∧ p ≠ "" ∧ pyLower p ≠ "n/a") := by
  obtain ⟨pairs, hp, hinv⟩ := extract_lobbyists_dictInv acts res h
  obtain ⟨h1, h2, _⟩ := hinv
  refine ⟨pairs, hp, h1, ?_⟩
  intro name ps hmem
  obtain ⟨_, hnd, hchar⟩ := h2 name ps hmem
  refine ⟨hnd, fun p => ?_⟩
  rw [hchar p, keepPosition_iff]

/-- Witness for C1 (amended), at the two-activity Jane Doe filing. -/
theorem c1_witness :
    ∃ pairs, pairsOfActs cJaneList = some pairs ∧
      (dictKeys [("Jane Doe", ["Senator", "Advisor"])]).Nodup ∧
      ∀ name ps,
        (name, ps) ∈ ([("Jane Doe", ["Senator", "Advisor"])] :
            List (String × List String)) → ps.Nodup ∧
          ∀ p, p ∈ ps ↔ ((name, p) ∈ pairs ∧ p ≠ "" ∧ pyLower p ≠ "n/a") :=
  c1_merging_unique_union cJaneList [("Jane Doe", ["Senator", "Advisor"])] rfl

/-- Claim C2 counterexample: on a lobbyist entry whose `covered_position` is
null, the merging variant `extract_lobbyists` (src/streamlit_json.py) calls
`.strip()` on `None` and raises (`none`), while `extract_covered_positions`
(src/streamlit_app.py) degrades to an empty result — so the derivation
functions do not all tolerate null/non-string covered positions. -/
theorem c2_counterexample :
    extract_lobbyists (mkCPActs Json.null) = none ∧
    extract_covered_positions (mkCPActs Json.null) = some [] :=
  ⟨rfl, rfl⟩

/-- Claim C2 (amended): around an arbitrary `covered_position` value,
`extract_covered_positions` (src/streamlit_app.py) never raises — a falsy
value (null, empty string, zero…) is filtered out and a truthy value is
coerced with `str(...)`, trimmed, and kept subject to the empty/"n/a"
filter; the merging variant `extract_lobbyists` (src/streamlit_json.py)
succeeds exactly when the value is a string. -/
theorem c2_covered_position_tolerance (v : Json) :
    extract_covered_positions (mkCPActs v) =
      some (if pyTruthy v && appKeep (pyStrip (pyStr v)) then
              [pyStrip (pyStr v)] else []) ∧
    (extract_lobbyists (mkCPActs v)).isSome = v.isStr := by
  constructor
  · cases htr : pyTruthy v <;> cases hk : appKeep (pyStrip (pyStr v)) <;>
      simp [extract_covered_positions, mkCPActs, mkCPEntry, coveredOfActs,
        coveredOfLobs, lobbyistsOfActivity, pyContains, Json.pyIndex, Json.pyGet,
        List.lookup, htr, hk, pySortedDedup, dedupKeepFirst, sortStrings, insSorted]
  · cases v <;> rfl

/-- Claim C4 counterexample: on a foreign-entity list holding an object that
lacks a `name` field, the src/streamlit_app.py lambda raises a `KeyError`
(`none`) instead of silently skipping the entry; the src/streamlit_json.py
variant does skip it. -/
theorem c4_counterexample :
    foreign_entities_app (Json.arr [Json.obj []]) = none ∧
    extract_foreign_entities (Json.arr [Json.obj []]) = some [] :=
  ⟨rfl, rfl⟩

/-- Claim C4 (amended): both variants return an empty collection when
`foreign_entities` is not a sequence; on a sequence of objects, the
src/streamlit_json.py variant returns the `name` of each entry in order,
silently skipping entries lacking the field, while the src/streamlit_app.py
lambda raises on such entries. -/
theorem c4_foreign_entities (es : List Json) (h : ∀ e ∈ es, e.isObj = true)
    (j : Json) (hj : j.isArr = false) :
    extract_foreign_entities (Json.arr es) = some (es.filterMap objName) ∧
    extract_foreign_entities j = some [] ∧
    foreign_entities_app j = some [] := by
  refine ⟨foreignNames_of_objs es h, ?_, ?_⟩
  · cases j
    case arr xs => simp [Json.isArr] at hj
    all_goals rfl
  · cases j
    case arr xs => simp [Json.isArr] at hj
    all_goals rfl

/-- Witness for C4 (amended), at a list with one named and one unnamed
entity object, and at the null value for the non-sequence case. -/
theorem c4_witness :
    (∀ e ∈ cForeignList, e.isObj = true) ∧ Json.isArr Json.null = false ∧
    (extract_foreign_entities (Json.arr cForeignList) =
        some (cForeignList.filterMap objName) ∧
     extract_foreign_entities Json.null = some [] ∧
     foreign_entities_app Json.null = some []) := by
  have h : ∀ e ∈ cForeignList, e.isObj = true := by
    intro e he
    simp [cForeignList] at he
    rcases he with rfl | rfl <;> rfl
  exact ⟨h, rfl, c4_foreign_entities cForeignList h Json.null rfl⟩

/-- Claim C10: in the merging variant (src/streamlit_json.py), a lobbyist
entry whose computed display name strips to the empty string is dropped:
no entry of the derived collection has an empty name. -/
theorem c10_empty_name_dropped (acts : List Json)
    (res : List (String × List String))
    (h : extract_lobbyists (Json.arr acts) = some res) :
    ∀ name ps, (name, ps) ∈ res → name ≠ "" := by
  obtain ⟨pairs, _, hinv⟩ := extract_lobbyists_dictInv acts res h
  obtain ⟨_, h2, _⟩ := hinv
  intro name ps hmem
  exact (h2 name ps hmem).1

/-- Witness for C10: the empty-named lobbyist carrying "Senator" is dropped
with its position, and the remaining entry's name is non-empty. -/
theorem c10_witness :
    extract_lobbyists (Json.arr cEmptyNameList) = some [("Jane Doe", ["Advisor"])] ∧
    ("Jane Doe" : String) ≠ "" :=
  ⟨rfl, c10_empty_name_dropped cEmptyNameList [("Jane Doe", ["Advisor"])] rfl
    "Jane Doe" ["Advisor"] (List.mem_singleton.mpr rfl)⟩

/-- Claim C3: for a filing whose `lobbying_activities` is absent, null, or any
non-sequence value, both lobbyist-derivation variants return an empty
collection and never raise (`some []`, no exception). -/
theorem c3_nonsequence_yields_empty (j : Json) (h : j.isArr = false) :
    extract_lobbyists j = some [] ∧ extract_lobbyists_app j = some [] := by
  cases j
  case arr xs => simp [Json.isArr] at h
  all_goals exact ⟨rfl, rfl⟩

/-- Witness for C3, at the null value. -/
theorem c3_witness :
    Json.isArr Json.null = false ∧
    (extract_lobbyists Json.null = some [] ∧
     extract_lobbyists_app Json.null = some []) :=
  ⟨rfl, c3_nonsequence_yields_empty Json.null rfl⟩

/-- Claim C5 counterexample: a `filing_year` cell that is not convertible to
integer aborts the whole `astype("Int64")` coercion (src/streamlit_json.py),
and a missing cell aborts `astype(int)` (src/streamlit_app.py) — the row is
not produced with an absent year; the load raises. -/
theorem c5_counterexample :
    astypeInt64Col [Json.str "N/A"] = none ∧ astypeIntCol [Json.null] = none :=
  ⟨rfl, rfl⟩

/-- Claim C5 (amended): when every `filing_year` cell is missing or an
integer, the nullable coercion of src/streamlit_json.py succeeds, turning
missing cells into `NA`; an `NA` year is excluded from year-based filtering
(`isin` is false on it). A non-convertible cell aborts the load instead. -/
theorem c5_year_coercion (col : List Json)
    (h : ∀ c ∈ col, c = Json.null ∨ ∃ n, c = Json.num n) :
    astypeInt64Col col =
      some (col.map (fun c => match c with | Json.num n => some n | _ => none)) ∧
    (∀ ys : List Int, isinYear none ys = false) :=
  ⟨astypeInt64Col_of_clean col h, fun _ => rfl⟩

/-- Witness for C5, at a column with one missing and one integer year. -/
theorem c5_witness :
    (∀ c ∈ [Json.null, Json.num 2023], c = Json.null ∨ ∃ n, c = Json.num n) ∧
    (astypeInt64Col [Json.null, Json.num 2023] = some [none, some 2023] ∧
     (∀ ys : List Int, isinYear none ys = false)) := by
  have h : ∀ c ∈ [Json.null, Json.num 2023], c = Json.null ∨ ∃ n, c = Json.num n := by
    intro c hc
    rcases List.mem_cons.mp hc with rfl | hc2
    · exact Or.inl rfl
    · rcases List.mem_cons.mp hc2 with rfl | hc3
      · exact Or.inr ⟨2023, rfl⟩
      · exact absurd hc3 (List.not_mem_nil c)
  exact ⟨h, c5_year_coercion _ h⟩

/-- Claim C6 counterexample: a present, non-null `registrant_description`
can also yield the sentinel "Unknown" (the description "unknown" under the
lowercase-capitalize policy, the description "Unknown" under passthrough),
so "Unknown" does not hold exactly when the description is absent or null. -/
theorem c6_counterexample :
    registrant_type_json (Json.str "unknown") = Json.str "Unknown" ∧
    registrant_type_app (Json.str "Unknown") = Json.str "Unknown" ∧
    Json.str "unknown" ≠ Json.null ∧ Json.str "Unknown" ≠ Json.null :=
  ⟨rfl, rfl, fun h => Json.noConfusion h, fun h => Json.noConfusion h⟩

/-- Claim C6 (amended): `registrant_type` is "Unknown" when the description
is absent/null; otherwise it is the description unchanged (src/streamlit_app.py)
or lowercased-then-capitalized (src/streamlit_json.py); it equals "Unknown"
exactly when the description is null or itself (normalizes to) "Unknown". -/
theorem c6_registrant_type (x : Json) :
    (registrant_type_app x = Json.str "Unknown" ↔
      (x = Json.null ∨ x = Json.str "Unknown")) ∧
    (registrant_type_json x = Json.str "Unknown" ↔
      (x = Json.null ∨ ∃ s, x = Json.str s ∧ pyCapitalize (pyLower s) = "Unknown")) ∧
    registrant_type_app Json.null = Json.str "Unknown" ∧
    registrant_type_json Json.null = Json.str "Unknown" ∧
    (∀ s, registrant_type_app (Json.str s) = Json.str s) ∧
    (∀ s, registrant_type_json (Json.str s) = Json.str (pyCapitalize (pyLower s))) := by
  refine ⟨?_, ?_, rfl, rfl, fun _ => rfl, fun _ => rfl⟩
  · cases x <;> simp [registrant_type_app, pdNotna]
  · cases x <;> simp [registrant_type_json, pdNotna, normalize_text]

/-- Claim C7: the derived `filing_link` is the anchor markup with the fixed
label "View Filing" carrying the URL unmutated when `filing_document_url`
is present and non-null, and the empty string exactly otherwise. -/
theorem c7_filing_link (s : String) :
    create_hyperlink (Json.str s) =
      "<a href=\"" ++ s ++ "\" target=\"_blank\">View Filing</a>" ∧
    strHasSub (create_hyperlink (Json.str s)) s = true ∧
    create_hyperlink Json.null = "" ∧
    (∀ u : Json, create_hyperlink u = "" ↔ u = Json.null) := by
  refine ⟨rfl, ?_, rfl, ?_⟩
  · exact strHasSub_append "<a href=\"" s "\" target=\"_blank\">View Filing</a>"
  · intro u
    cases u
    case null => simp [create_hyperlink, pdNotna]
    all_goals
      exact ⟨fun h => absurd h (anchor_ne_empty _), fun h => Json.noConfusion h⟩

/-- Claim C8: the four sidebar filters (year, client, registrant, foreign
entity), each a guarded membership test on its own column, commute pairwise:
applying any two in either order yields the same row list. -/
theorem c8_filters_commute (ys : List Int) (cs rs fs : List String) (rows : List Row) :
    applyYearFilter ys (applyClientFilter cs rows) =
      applyClientFilter cs (applyYearFilter ys rows) ∧
    applyYearFilter ys (applyRegistrantFilter rs rows) =
      applyRegistrantFilter rs (applyYearFilter ys rows) ∧
    applyYearFilter ys (applyForeignFilter fs rows) =
      applyForeignFilter fs (applyYearFilter ys rows) ∧
    applyClientFilter cs (applyRegistrantFilter rs rows) =
      applyRegistrantFilter rs (applyClientFilter cs rows) ∧
    applyClientFilter cs (applyForeignFilter fs rows) =
      applyForeignFilter fs (applyClientFilter cs rows) ∧
    applyRegistrantFilter rs (applyForeignFilter fs rows) =
      applyForeignFilter fs (applyRegistrantFilter rs rows) :=
  ⟨applyGuard_comm ys.isEmpty cs.isEmpty _ _ rows,
   applyGuard_comm ys.isEmpty rs.isEmpty _ _ rows,
   applyGuard_comm ys.isEmpty fs.isEmpty _ _ rows,
   applyGuard_comm cs.isEmpty rs.isEmpty _ _ rows,
   applyGuard_comm cs.isEmpty fs.isEmpty _ _ rows,
   applyGuard_comm rs.isEmpty fs.isEmpty _ _ rows⟩

/-- Claim C9: the exploded value count of a collection-valued column whose
every row holds an empty collection is the empty mapping. -/
theorem c9_exploded_counts_empty (col : List (List String))
    (h : ∀ xs ∈ col, xs = []) : explodedValueCounts col = [] := by
  unfold explodedValueCounts
  rw [exploded_nil_of_all_nil col h]
  rfl

/-- Witness for C9, at a two-row column of empty collections. -/
theorem c9_witness :
    (∀ xs ∈ [([] : List String), []], xs = []) ∧
    explodedValueCounts [[], []] = [] := by
  have h : ∀ xs ∈ [([] : List String), []], xs = [] := by decide
  exact ⟨h, c9_exploded_counts_empty _ h⟩

end ChinaLobby
